import Mathlib

/-!
Shallow embedding of the CSV-to-PostgreSQL loader (src/csv_to_pg.py together
with the static configuration in src/config.py).

Python strings are modelled as lists of characters (`PyStr`).  The filesystem
and the external collaborators (pandas readers, the SQLAlchemy `to_sql` bulk
insert) are modelled as abstract structures of functions; the pure logic of
the script (identifier sanitization, file selection, configuration resolution
and load orchestration) is translated directly from the source.
-/

namespace CsvPg

/-- Python strings, modelled as lists of characters. -/
abbrev PyStr := List Char

/-- Convenience conversion from Lean string literals. -/
def pstr (s : String) : PyStr := s.data

/-! ### Character classes used by the two regular expressions of the script -/

/-- Membership in the class `[a-z0-9_]` (the file-name sanitizer's allow-set). -/
def isLowerAlnumUnd (c : Char) : Bool :=
  (97 ≤ c.toNat && c.toNat ≤ 122) || (48 ≤ c.toNat && c.toNat ≤ 57) || c.toNat == 95

/-- Membership in the class `[a-zA-Z0-9_]` (the column-header sanitizer's allow-set). -/
def isAlnumUnd (c : Char) : Bool :=
  isLowerAlnumUnd c || (65 ≤ c.toNat && c.toNat ≤ 90)

/-- ASCII digit test, as used by Python's `str.isdigit` on the ASCII-only
sanitizer output. -/
def isDigitChar (c : Char) : Bool := 48 ≤ c.toNat && c.toNat ≤ 57

/-- Underscore test. -/
def isUnd (c : Char) : Bool := c.toNat == 95

/-- ASCII whitespace stripped by Python's `str.strip()`. -/
def pyWhitespace (c : Char) : Bool :=
  c.toNat == 32 || c.toNat == 9 || c.toNat == 10 ||
  c.toNat == 13 || c.toNat == 11 || c.toNat == 12

/-- Python `str.lower` on the ASCII range (`'A'..'Z'` map to `'a'..'z'`);
all characters the sanitizers keep are ASCII. -/
def pyLower (c : Char) : Char :=
  if 65 ≤ c.toNat && c.toNat ≤ 90 then Char.ofNat (c.toNat + 32) else c

/-- Python `str.lower` lifted to strings. -/
def pyLowerStr (s : PyStr) : PyStr := s.map pyLower

/-! ### POSIX path helpers (`os.path`) -/

/-- Model of `os.path.basename`: everything after the last slash. -/
def basenamePy (p : PyStr) : PyStr :=
  p.foldl (fun acc c => if c == '/' then [] else acc ++ [c]) []

/-- Index of the last occurrence of a character, if any (`str.rfind`). -/
def rfindIdx (ch : Char) : PyStr → Option Nat
  | [] => none
  | c :: rest =>
    match rfindIdx ch rest with
    | some i => some (i + 1)
    | none => if c == ch then some 0 else none

/-- Model of CPython's `os.path.splitext` split point: the index of the
extension dot, when the last dot lies after the last slash and is preceded
(within the base name) by at least one character that is not a dot. -/
def splitextDot (p : PyStr) : Option Nat :=
  match rfindIdx '.' p with
  | none => none
  | some d =>
    let start := match rfindIdx '/' p with
      | none => 0
      | some s => s + 1
    if ((p.drop start).take (d - start)).any (fun c => c != '.') then some d else none

/-- Root part of `os.path.splitext`. -/
def splitextRoot (p : PyStr) : PyStr :=
  match splitextDot p with
  | none => p
  | some d => p.take d

/-- Extension part of `os.path.splitext` (includes the dot). -/
def splitextExt (p : PyStr) : PyStr :=
  match splitextDot p with
  | none => []
  | some d => p.drop d

/-- Model of `os.path.isabs` (POSIX). -/
def isabs (p : PyStr) : Bool :=
  match p with
  | c :: _ => c == '/'
  | [] => false

/-- Model of the two-argument `os.path.join` (POSIX). -/
def joinPath (a b : PyStr) : PyStr :=
  if isabs b then b
  else if a.isEmpty || a.getLast? == some '/' then a ++ b
  else a ++ '/' :: b

/-! ### The two regular-expression substitutions -/

/-- Model of `re.sub(cls+, "_", s)`: each maximal run of characters matching
`bad` is replaced by a single underscore.  The flag records whether the
previous character belonged to a run. -/
def subRunsAux (bad : Char → Bool) : PyStr → Bool → PyStr
  | [], _ => []
  | c :: rest, prevBad =>
    if bad c then
      (if prevBad then [] else ['_']) ++ subRunsAux bad rest true
    else
      c :: subRunsAux bad rest false

/-- Replace maximal runs of `bad` characters by single underscores. -/
def subRuns (bad : Char → Bool) (s : PyStr) : PyStr := subRunsAux bad s false

/-- Remove the trailing run of characters matching `bad`
(the right half of Python's `str.strip`). -/
def dropTrailing (bad : Char → Bool) : PyStr → PyStr
  | [] => []
  | c :: rest =>
    match dropTrailing bad rest with
    | [] => if bad c then [] else [c]
    | d :: ds => c :: d :: ds

/-- Model of Python's `str.strip(class)`: remove leading and trailing
characters of the class. -/
def stripBoth (bad : Char → Bool) (s : PyStr) : PyStr :=
  dropTrailing bad (s.dropWhile bad)

/-! ### Identifier sanitization (src/csv_to_pg.py lines 22-45 and 154-161) -/

/-- Fallback table name for an empty sanitization result. -/
def tableFallback : PyStr := pstr "table"

/-- Fallback column name for an empty sanitization result. -/
def colFallback : PyStr := pstr "col"

/-- Digit test on the first character of a string. -/
def headIsDigit : PyStr → Bool
  | [] => false
  | c :: _ => isDigitChar c

/-- Final steps of `sanitize_table_name` (src/csv_to_pg.py lines 33-45):
substitute `"table"` when the result is empty, prepend `t_` when it starts
with a digit. -/
def finishTable (base : PyStr) : PyStr :=
  let base3 := if base.isEmpty then tableFallback else base
  if headIsDigit base3 then 't' :: '_' :: base3 else base3

/-- Model of `sanitize_table_name` (src/csv_to_pg.py lines 22-45):
base name without directory and extension, lower-cased and stripped, invalid
characters replaced by underscores, underscore runs collapsed, boundary
underscores stripped, `"table"` as empty fallback, `t_` prefix when the
result starts with a digit. -/
def sanitize_table_name (name : PyStr) : PyStr :=
  finishTable (stripBoth isUnd (subRuns isUnd
    (subRuns (fun c => !isLowerAlnumUnd c)
      (stripBoth pyWhitespace (pyLowerStr (splitextRoot (basenamePy name)))))))

/-- The `or "col"` fallback of the column normalization. -/
def finishCol (b : PyStr) : PyStr := if b.isEmpty then colFallback else b

/-- Model of the column normalization of `load_csv_to_postgres`
(src/csv_to_pg.py lines 154-161):
`re.sub(r"[^a-zA-Z0-9_]+", "_", c).strip("_").lower() or "col"`. -/
def sanitize_column (c : PyStr) : PyStr :=
  finishCol (pyLowerStr (stripBoth isUnd (subRuns (fun ch => !isAlnumUnd ch) c)))

/-! ### Configuration resolution (src/csv_to_pg.py lines 50-63) -/

/-- Model of `resolve_value`: the config value when it is not `None`, else
the CLI value when it is not `None`, else the default. -/
def resolve_value {α : Type} (cfg_value cli_value : Option α) (dflt : Option α) :
    Option α :=
  match cfg_value with
  | some v => some v
  | none =>
    match cli_value with
    | some v => some v
    | none => dflt

/-! ### File selection (src/csv_to_pg.py lines 68-113) -/

/-- Abstract filesystem: directory test, regular-file test, directory listing. -/
structure FileSystem where
  isDir : PyStr → Bool
  isFile : PyStr → Bool
  listdir : PyStr → List PyStr

/-- Model of `os.path.exists`: true for regular files and directories alike. -/
def FileSystem.pathExists (fs : FileSystem) (p : PyStr) : Bool :=
  fs.isDir p || fs.isFile p

/-- Errors raised by `get_csv_files`. -/
inductive SelError where
  | notADirectory
  | fileNotFound
deriving DecidableEq

/-- Python truthiness of the optional `csv_names` argument: `None` and the
empty list are both falsy. -/
def pyTruthy : Option (List PyStr) → Bool
  | none => false
  | some l => !l.isEmpty

/-- Python `str.endswith` for one suffix. -/
def endsWith (s suf : PyStr) : Bool := s.reverse.take suf.length == suf.reverse

/-- The `allowed_exts` tuple of `get_csv_files`. -/
def allowed_exts : List PyStr := [pstr ".csv", pstr ".xlsx", pstr ".xls"]

/-- The directory-scan filter `f.lower().endswith(allowed_exts)`. -/
def hasAllowedExt (f : PyStr) : Bool :=
  allowed_exts.any (fun e => endsWith (pyLowerStr f) e)

/-- Resolution of one explicit entry:
`name if os.path.isabs(name) else os.path.join(csv_dir, name)`. -/
def resolveArg (csv_dir name : PyStr) : PyStr :=
  if isabs name then name else joinPath csv_dir name

/-- The validation loop of the explicit-list branch of `get_csv_files`:
resolve each entry, fail on the first missing one, keep the given order. -/
def validateExplicit (fs : FileSystem) (csv_dir : PyStr) :
    List PyStr → Except SelError (List PyStr)
  | [] => .ok []
  | name :: rest =>
    let path := resolveArg csv_dir name
    if fs.pathExists path then
      match validateExplicit fs csv_dir rest with
      | .ok files => .ok (path :: files)
      | .error e => .error e
    else .error .fileNotFound

/-- Python string comparison (lexicographic by code point), as used by
`sorted`. -/
def strLe (a b : PyStr) : Bool :=
  match a, b with
  | [], _ => true
  | _ :: _, [] => false
  | c :: cs, d :: ds =>
    if c.toNat < d.toNat then true
    else if d.toNat < c.toNat then false
    else strLe cs ds

/-- Model of `get_csv_files` (src/csv_to_pg.py lines 68-113). -/
def get_csv_files (fs : FileSystem) (csv_dir : PyStr)
    (csv_names : Option (List PyStr)) : Except SelError (List PyStr) :=
  if !fs.isDir csv_dir then .error .notADirectory
  else if pyTruthy csv_names then
    validateExplicit fs csv_dir (csv_names.getD [])
  else
    let files := ((fs.listdir csv_dir).filter hasAllowedExt).map (joinPath csv_dir)
    if files.isEmpty then .error .fileNotFound
    else .ok (files.mergeSort strLe)

/-! ### Load orchestration (src/csv_to_pg.py lines 118-193 and 262-277) -/

/-- A parsed tabular file: raw column headers and the number of data rows. -/
structure Frame where
  columns : List PyStr
  nrows : Nat
deriving DecidableEq

/-- Outcome of a pandas read call: a frame, an `ImportError` (caught and
turned into `sys.exit(1)`), or any other exception (which propagates). -/
inductive ReadOutcome where
  | ok (df : Frame)
  | importFailure
  | raised
deriving DecidableEq

/-- The external collaborators of `load_csv_to_postgres`: the pandas readers
and the `DataFrame.to_sql` bulk insert.  `to_sql` receives the table name,
the schema, the (already sanitized) column names, the row count and the chunk
size; `false` models a raised `ValueError`/`SQLAlchemyError` (in particular
the fail-if-exists policy firing). -/
structure LoadEnv where
  read_csv : PyStr → PyStr → PyStr → ReadOutcome
  read_excel : PyStr → ReadOutcome
  to_sql : PyStr → PyStr → List PyStr → Nat → Nat → Bool

/-- Terminal failures of one file's load. -/
inductive LoadErr where
  | unsupportedFormat (ext : PyStr)
  | missingDependency
  | readRaised
  | dbError (schema table : PyStr)
deriving DecidableEq

/-- Successful load of one file: table identity, sanitized columns, row count. -/
structure LoadOk where
  table : PyStr
  columns : List PyStr
  rows : Nat
deriving DecidableEq

/-- Whether an extension string is one the reader dispatch accepts. -/
def extSupported (e : PyStr) : Bool :=
  e == pstr ".csv" || e == pstr ".xlsx" || e == pstr ".xls"

/-- Model of `load_csv_to_postgres` (src/csv_to_pg.py lines 118-193):
derive the table name, dispatch the read on the lower-cased extension
(raising on unsupported extensions before anything else happens), sanitize
the column headers, then hand the frame to `to_sql`; a database failure
aborts the run. -/
def load_csv_to_postgres (env : LoadEnv) (csv_path schema sep encoding : PyStr)
    (chunksize : Nat) : Except LoadErr LoadOk :=
  let table_name := sanitize_table_name csv_path
  let ext := pyLowerStr (splitextExt csv_path)
  let rd : Except LoadErr Frame :=
    if ext == pstr ".csv" then
      match env.read_csv csv_path sep encoding with
      | .ok df => .ok df
      | .importFailure => .error .missingDependency
      | .raised => .error .readRaised
    else if ext == pstr ".xlsx" || ext == pstr ".xls" then
      match env.read_excel csv_path with
      | .ok df => .ok df
      | .importFailure => .error .missingDependency
      | .raised => .error .readRaised
    else .error (.unsupportedFormat ext)
  match rd with
  | .error e => .error e
  | .ok df =>
    let cols := df.columns.map sanitize_column
    if env.to_sql table_name schema cols df.nrows chunksize then
      .ok { table := table_name, columns := cols, rows := df.nrows }
    else .error (.dbError schema table_name)

/-- The load loop of `main` (src/csv_to_pg.py lines 262-277): returns the
files on which a load was attempted, in order, and the error that aborted
the run, if any.  A failing load stops the loop at once. -/
def processFiles (env : LoadEnv) (schema sep encoding : PyStr) (chunksize : Nat) :
    List PyStr → List PyStr × Option LoadErr
  | [] => ([], none)
  | f :: rest =>
    match load_csv_to_postgres env f schema sep encoding chunksize with
    | .error e => ([f], some e)
    | .ok _ =>
      let r := processFiles env schema sep encoding chunksize rest
      (f :: r.1, r.2)

/-! ### The main entry point (src/csv_to_pg.py lines 198-280, src/config.py) -/

/-- The static configuration dictionary of src/config.py: every key nullable. -/
structure ConfigMap where
  DB_URL : Option PyStr
  CSV_DIR : Option PyStr
  CSV_NAMES : Option (List PyStr)
  SCHEMA : Option PyStr
  CSV_SEPARATOR : Option PyStr
  CSV_ENCODING : Option PyStr
  CHUNKSIZE : Option Nat

/-- The parsed command-line arguments: every flag optional. -/
structure CliArgs where
  db : Option PyStr
  dir : Option PyStr
  csv : Option (List PyStr)
  schema : Option PyStr
  sep : Option PyStr
  encoding : Option PyStr
  chunksize : Option Nat

/-- Fatal outcomes of a run. -/
inductive MainErr where
  | missingDbUrl
  | selection (e : SelError)
  | loadFailed (e : LoadErr)
deriving DecidableEq

/-- Python falsiness of the resolved database URL (`if not db_url:`):
`None` and the empty string are both falsy. -/
def pyFalsyStr : Option PyStr → Bool
  | none => true
  | some s => s.isEmpty

/-- Model of `main` (src/csv_to_pg.py lines 198-280): resolve every
parameter with `resolve_value`, abort when the database URL is falsy, select
the files, then run the load loop.  On success it returns the list of loaded
files. -/
def mainModel (cfg : ConfigMap) (args : CliArgs) (fs : FileSystem)
    (env : LoadEnv) : Except MainErr (List PyStr) :=
  let db_url := resolve_value cfg.DB_URL args.db none
  if pyFalsyStr db_url then .error .missingDbUrl
  else
    let csv_dir := (resolve_value cfg.CSV_DIR args.dir (some (pstr "."))).getD (pstr ".")
    let csv_names := resolve_value cfg.CSV_NAMES args.csv none
    let schema := (resolve_value cfg.SCHEMA args.schema (some (pstr "public"))).getD (pstr "public")
    let sep := (resolve_value cfg.CSV_SEPARATOR args.sep (some (pstr ","))).getD (pstr ",")
    let encoding := (resolve_value cfg.CSV_ENCODING args.encoding (some (pstr "utf-8"))).getD (pstr "utf-8")
    let chunksize := (resolve_value cfg.CHUNKSIZE args.chunksize (some 2000)).getD 2000
    match get_csv_files fs csv_dir csv_names with
    | .error e => .error (.selection e)
    | .ok files =>
      match processFiles env schema sep encoding chunksize files with
      | (_, some e) => .error (.loadFailed e)
      | (att, none) => .ok att

/-! ### The sanitized-identifier invariant (spec.md section 3) -/

/-- The first character, if any, is not an underscore. -/
def headNotUnd : PyStr → Bool
  | [] => true
  | c :: _ => !isUnd c

/-- No character of the string is an underscore immediately followed by
another underscore. -/
def noConsecUnd : PyStr → Bool
  | [] => true
  | c :: rest => (!isUnd c || headNotUnd rest) && noConsecUnd rest

/-- The last character, if any, does not satisfy the predicate. -/
def lastNot (bad : Char → Bool) (s : PyStr) : Bool :=
  match s.getLast? with
  | none => true
  | some c => !bad c

/-- The last character, if any, is not an underscore. -/
def lastNotUnd (s : PyStr) : Bool := lastNot isUnd s

/-- The spec's sanitized-identifier invariant: non-empty, only lowercase
letters, digits and underscores, no leading digit, no consecutive
underscores, no boundary underscores. -/
def validIdent (s : PyStr) : Bool :=
  !s.isEmpty && s.all isLowerAlnumUnd && !headIsDigit s &&
  noConsecUnd s && headNotUnd s && lastNotUnd s

/-! ### Character-level lemmas -/

theorem toNat_ofNat_small (n : Nat) (h : n < 55296) : (Char.ofNat n).toNat = n := by
  have hv : n.isValidChar := Or.inl h
  rw [Char.ofNat, dif_pos hv]
  simp [Char.ofNatAux, Char.toNat, UInt32.toNat]

theorem eq_und_of_isUnd {c : Char} (h : isUnd c = true) : c = '_' := by
  have h95 : c.toNat = 95 := by simpa [isUnd] using h
  have : Char.ofNat c.toNat = Char.ofNat 95 := by rw [h95]
  rw [Char.ofNat_toNat] at this
  rw [this]

theorem isUnd_und : isUnd '_' = true := by decide

theorem pyLower_of_allowed {c : Char} (h : isLowerAlnumUnd c = true) :
    pyLower c = c := by
  simp only [isLowerAlnumUnd, Bool.or_eq_true, Bool.and_eq_true, decide_eq_true_eq,
    beq_iff_eq] at h
  simp only [pyLower, Bool.and_eq_true, decide_eq_true_eq]
  have : ¬(65 ≤ c.toNat ∧ c.toNat ≤ 90) := by omega
  simp [this]

theorem isLowerAlnumUnd_pyLower {c : Char} (h : isAlnumUnd c = true) :
    isLowerAlnumUnd (pyLower c) = true := by
  simp only [isAlnumUnd, Bool.or_eq_true] at h
  rcases h with h | h
  · rw [pyLower_of_allowed h]; exact h
  · simp only [Bool.and_eq_true, decide_eq_true_eq] at h
    have hif : (65 ≤ c.toNat && c.toNat ≤ 90) = true := by
      simp only [Bool.and_eq_true, decide_eq_true_eq]; exact h
    simp only [pyLower, hif, if_true]
    have ht : (Char.ofNat (c.toNat + 32)).toNat = c.toNat + 32 :=
      toNat_ofNat_small _ (by omega)
    simp only [isLowerAlnumUnd, ht, Bool.or_eq_true, Bool.and_eq_true,
      decide_eq_true_eq, beq_iff_eq]
    omega

theorem isUnd_pyLower (c : Char) : isUnd (pyLower c) = isUnd c := by
  by_cases hif : (65 ≤ c.toNat && c.toNat ≤ 90) = true
  · simp only [pyLower, hif, if_true]
    have hb : 65 ≤ c.toNat ∧ c.toNat ≤ 90 := by
      simpa [Bool.and_eq_true, decide_eq_true_eq] using hif
    have ht : (Char.ofNat (c.toNat + 32)).toNat = c.toNat + 32 :=
      toNat_ofNat_small _ (by omega)
    have e1 : (c.toNat + 32 == 95) = false := by
      simp only [beq_eq_false_iff_ne, ne_eq]; omega
    have e2 : (c.toNat == 95) = false := by
      simp only [beq_eq_false_iff_ne, ne_eq]; omega
    simp only [isUnd, ht, e1, e2]
  · have hf : (65 ≤ c.toNat && c.toNat ≤ 90) = false := Bool.eq_false_iff.mpr hif
    simp [pyLower, hf]

theorem not_isUnd_of_isDigit {c : Char} (h : isDigitChar c = true) :
    isUnd c = false := by
  simp only [isDigitChar, Bool.and_eq_true, decide_eq_true_eq] at h
  simp only [isUnd, beq_eq_false_iff_ne, ne_eq]
  omega

theorem not_ws_of_allowed {c : Char} (h : isLowerAlnumUnd c = true) :
    pyWhitespace c = false := by
  simp only [isLowerAlnumUnd, Bool.or_eq_true, Bool.and_eq_true, decide_eq_true_eq,
    beq_iff_eq] at h
  simp only [pyWhitespace, Bool.or_eq_false_iff, beq_eq_false_iff_ne, ne_eq]
  omega

theorem not_slash_of_allowed {c : Char} (h : isLowerAlnumUnd c = true) :
    (c == '/') = false := by
  simp only [isLowerAlnumUnd, Bool.or_eq_true, Bool.and_eq_true, decide_eq_true_eq,
    beq_iff_eq] at h
  have : c.toNat ≠ 47 := by omega
  simp only [beq_eq_false_iff_ne, ne_eq]
  intro hc
  exact this (by rw [hc]; rfl)

theorem not_dot_of_allowed {c : Char} (h : isLowerAlnumUnd c = true) :
    (c == '.') = false := by
  simp only [isLowerAlnumUnd, Bool.or_eq_true, Bool.and_eq_true, decide_eq_true_eq,
    beq_iff_eq] at h
  have : c.toNat ≠ 46 := by omega
  simp only [beq_eq_false_iff_ne, ne_eq]
  intro hc
  exact this (by rw [hc]; rfl)

theorem allowed_und : isLowerAlnumUnd '_' = true := by decide

theorem allowed_t : isLowerAlnumUnd 't' = true := by decide

/-! ### Lemmas about the run-substitution -/

theorem noConsecUnd_tail {c : Char} {l : PyStr} (h : noConsecUnd (c :: l) = true) :
    noConsecUnd l = true := by
  simp only [noConsecUnd, Bool.and_eq_true] at h
  exact h.2

theorem noConsecUnd_cons_head {c : Char} {l : PyStr} (h : noConsecUnd (c :: l) = true)
    (hc : isUnd c = true) : headNotUnd l = true := by
  simp only [noConsecUnd, Bool.and_eq_true, Bool.or_eq_true] at h
  rcases h.1 with h1 | h1
  · rw [hc] at h1; cases h1
  · exact h1

theorem mem_subRunsAux {bad : Char → Bool} {c : Char} {s : PyStr} :
    ∀ {b : Bool}, c ∈ subRunsAux bad s b → c = '_' ∨ (c ∈ s ∧ bad c = false) := by
  induction s with
  | nil => intro b h; simp [subRunsAux] at h
  | cons x rest ih =>
    intro b h
    simp only [subRunsAux] at h
    by_cases hx : bad x
    · rw [if_pos hx, List.mem_append] at h
      rcases h with h | h
      · left; cases b <;> simp_all
      · rcases ih h with h1 | h1
        · exact Or.inl h1
        · exact Or.inr ⟨List.mem_cons_of_mem _ h1.1, h1.2⟩
    · rw [if_neg hx] at h
      rcases List.mem_cons.mp h with h | h
      · subst h
        exact Or.inr ⟨List.mem_cons_self _ _, Bool.eq_false_iff.mpr hx⟩
      · rcases ih h with h1 | h1
        · exact Or.inl h1
        · exact Or.inr ⟨List.mem_cons_of_mem _ h1.1, h1.2⟩

theorem subRunsAux_eq_self {bad : Char → Bool} {s : PyStr}
    (h : ∀ c ∈ s, bad c = false) : ∀ b, subRunsAux bad s b = s := by
  induction s with
  | nil => intro _; rfl
  | cons x rest ih =>
    intro b
    have hx : bad x = false := h x (List.mem_cons_self _ _)
    simp only [subRunsAux, hx, Bool.false_eq_true, if_false]
    rw [ih (fun c hc => h c (List.mem_cons_of_mem _ hc)) false]

theorem subRunsAux_und_props (s : PyStr) :
    ∀ b : Bool,
      noConsecUnd (subRunsAux isUnd s b) = true ∧
      (b = true → headNotUnd (subRunsAux isUnd s b) = true) := by
  induction s with
  | nil => intro _; exact ⟨rfl, fun _ => rfl⟩
  | cons x rest ih =>
    intro b
    by_cases hx : isUnd x
    · cases b with
      | false =>
        simp only [subRunsAux, if_pos hx, Bool.false_eq_true, if_false,
          List.singleton_append]
        constructor
        · simp only [noConsecUnd, Bool.and_eq_true, Bool.or_eq_true]
          exact ⟨Or.inr ((ih true).2 rfl), (ih true).1⟩
        · intro hb; cases hb
      | true =>
        simp only [subRunsAux, if_pos hx, if_true, List.nil_append]
        exact ⟨(ih true).1, fun _ => (ih true).2 rfl⟩
    · simp only [subRunsAux, if_neg hx]
      have hx' : isUnd x = false := Bool.eq_false_iff.mpr hx
      constructor
      · simp only [noConsecUnd, Bool.and_eq_true, Bool.or_eq_true]
        exact ⟨Or.inl (by simp [hx']), (ih false).1⟩
      · intro _; simp [headNotUnd, hx']

theorem subRunsAux_und_eq_self {s : PyStr} :
    ∀ b : Bool, noConsecUnd s = true → (b = true → headNotUnd s = true) →
      subRunsAux isUnd s b = s := by
  induction s with
  | nil => intro _ _ _; rfl
  | cons x rest ih =>
    intro b hnc hh
    by_cases hx : isUnd x
    · have hb : b = false := by
        cases b with
        | false => rfl
        | true =>
          exfalso
          have := hh rfl
          simp [headNotUnd, hx] at this
      subst hb
      simp only [subRunsAux, if_pos hx, Bool.false_eq_true, if_false,
        List.singleton_append]
      have hhr : headNotUnd rest = true := noConsecUnd_cons_head hnc hx
      rw [ih true (noConsecUnd_tail hnc) (fun _ => hhr), eq_und_of_isUnd hx]
    · simp only [subRunsAux, if_neg hx]
      rw [ih false (noConsecUnd_tail hnc) (by intro h; cases h)]

/-! ### Lemmas about stripping -/

theorem dropWhile_eq_self_of_headNotUnd {l : PyStr} (h : headNotUnd l = true) :
    l.dropWhile isUnd = l := by
  cases l with
  | nil => rfl
  | cons c rest =>
    simp only [headNotUnd, Bool.not_eq_true'] at h
    simp [List.dropWhile_cons, h]

theorem headNotUnd_dropWhile (l : PyStr) : headNotUnd (l.dropWhile isUnd) = true := by
  induction l with
  | nil => rfl
  | cons c rest ih =>
    by_cases h : isUnd c
    · simpa [List.dropWhile_cons, h] using ih
    · simp [List.dropWhile_cons, Bool.eq_false_iff.mpr h, headNotUnd]

theorem noConsecUnd_dropWhile {p : Char → Bool} {l : PyStr}
    (h : noConsecUnd l = true) : noConsecUnd (l.dropWhile p) = true := by
  induction l with
  | nil => exact h
  | cons c rest ih =>
    rw [List.dropWhile_cons]
    by_cases hc : p c
    · rw [if_pos hc]; exact ih (noConsecUnd_tail h)
    · rw [if_neg hc]; exact h

theorem dropWhile_eq_self_of_all {p : Char → Bool} {l : PyStr}
    (h : ∀ c ∈ l, p c = false) : l.dropWhile p = l := by
  cases l with
  | nil => rfl
  | cons c rest => simp [List.dropWhile_cons, h c (List.mem_cons_self _ _)]

theorem dropTrailing_cons (p : Char → Bool) (x : Char) (rest : PyStr) :
    dropTrailing p (x :: rest) =
      match dropTrailing p rest with
      | [] => if p x then [] else [x]
      | d :: ds => x :: d :: ds := rfl

theorem mem_dropTrailing {p : Char → Bool} {c : Char} :
    ∀ {l : PyStr}, c ∈ dropTrailing p l → c ∈ l := by
  intro l
  induction l with
  | nil => intro h; exact h
  | cons x rest ih =>
    intro h
    simp only [dropTrailing] at h
    cases hr : dropTrailing p rest with
    | nil =>
      rw [hr] at h
      by_cases hx : p x
      · simp [hx] at h
      · rw [if_neg hx] at h
        simp only [List.mem_singleton] at h
        subst h
        exact List.mem_cons_self _ _
    | cons d ds =>
      rw [hr] at h
      rcases List.mem_cons.mp h with h | h
      · subst h; exact List.mem_cons_self _ _
      · exact List.mem_cons_of_mem _ (ih (hr ▸ h))

theorem lastNot_dropTrailing (p : Char → Bool) :
    ∀ l : PyStr, lastNot p (dropTrailing p l) = true := by
  intro l
  induction l with
  | nil => rfl
  | cons x rest ih =>
    simp only [dropTrailing]
    cases hr : dropTrailing p rest with
    | nil =>
      by_cases hx : p x
      · rw [if_pos hx]; rfl
      · rw [if_neg hx]
        simp [lastNot, List.getLast?_singleton, Bool.eq_false_iff.mpr hx]
    | cons d ds =>
      rw [hr] at ih
      simpa only [lastNot, List.getLast?_cons_cons] using ih

theorem dropTrailing_append (p : Char → Bool) :
    ∀ l : PyStr, ∃ t, l = dropTrailing p l ++ t := by
  intro l
  induction l with
  | nil => exact ⟨[], rfl⟩
  | cons x rest ih =>
    obtain ⟨t, ht⟩ := ih
    simp only [dropTrailing]
    cases hr : dropTrailing p rest with
    | nil =>
      by_cases hx : p x
      · rw [if_pos hx]
        exact ⟨x :: rest, rfl⟩
      · rw [if_neg hx]
        refine ⟨t, ?_⟩
        rw [hr] at ht
        simp only [List.nil_append] at ht
        simp [ht]
    | cons d ds =>
      rw [hr] at ht
      exact ⟨t, by simp [List.cons_append, ← ht]⟩

theorem headNotUnd_of_append {a b : PyStr} (h : headNotUnd (a ++ b) = true) :
    headNotUnd a = true := by
  cases a with
  | nil => rfl
  | cons x xs => simpa only [List.cons_append, headNotUnd] using h

theorem noConsecUnd_append_left : ∀ {a b : PyStr}, noConsecUnd (a ++ b) = true →
    noConsecUnd a = true := by
  intro a
  induction a with
  | nil => intro b _; rfl
  | cons x xs ih =>
    intro b h
    simp only [List.cons_append, noConsecUnd, Bool.and_eq_true] at h ⊢
    refine ⟨?_, ih h.2⟩
    have h1 := h.1
    rw [Bool.or_eq_true] at h1 ⊢
    rcases h1 with h1 | h1
    · exact Or.inl h1
    · exact Or.inr (headNotUnd_of_append h1)

theorem noConsecUnd_dropTrailing {p : Char → Bool} {l : PyStr}
    (h : noConsecUnd l = true) : noConsecUnd (dropTrailing p l) = true := by
  obtain ⟨t, ht⟩ := dropTrailing_append p l
  exact noConsecUnd_append_left (ht ▸ h)

theorem headNotUnd_dropTrailing {p : Char → Bool} {l : PyStr}
    (h : headNotUnd l = true) : headNotUnd (dropTrailing p l) = true := by
  obtain ⟨t, ht⟩ := dropTrailing_append p l
  exact headNotUnd_of_append (ht ▸ h)

theorem dropTrailing_eq_self {p : Char → Bool} :
    ∀ {l : PyStr}, lastNot p l = true → dropTrailing p l = l := by
  intro l
  induction l with
  | nil => intro _; rfl
  | cons x rest ih =>
    intro h
    cases rest with
    | nil =>
      simp only [lastNot, List.getLast?_singleton, Bool.not_eq_true'] at h
      simp [dropTrailing, h]
    | cons y ys =>
      have h' : lastNot p (y :: ys) = true := by
        simpa only [lastNot, List.getLast?_cons_cons] using h
      rw [dropTrailing_cons, ih h']

/-! ### Assembled stripping lemmas -/

theorem mem_stripBoth {p : Char → Bool} {c : Char} {l : PyStr}
    (h : c ∈ stripBoth p l) : c ∈ l :=
  (List.dropWhile_sublist p).subset (mem_dropTrailing h)

theorem headNotUnd_stripBothUnd (l : PyStr) : headNotUnd (stripBoth isUnd l) = true :=
  headNotUnd_dropTrailing (headNotUnd_dropWhile l)

theorem lastNotUnd_stripBothUnd (l : PyStr) : lastNotUnd (stripBoth isUnd l) = true :=
  lastNot_dropTrailing isUnd _

theorem noConsecUnd_stripBothUnd {l : PyStr} (h : noConsecUnd l = true) :
    noConsecUnd (stripBoth isUnd l) = true :=
  noConsecUnd_dropTrailing (noConsecUnd_dropWhile h)

theorem lastNot_of_all {p : Char → Bool} {l : PyStr} (h : ∀ c ∈ l, p c = false) :
    lastNot p l = true := by
  unfold lastNot
  cases hg : l.getLast? with
  | none => rfl
  | some c => simp [h c (List.mem_of_getLast?_eq_some hg)]

theorem stripBoth_eq_self_of_all {p : Char → Bool} {l : PyStr}
    (h : ∀ c ∈ l, p c = false) : stripBoth p l = l := by
  unfold stripBoth
  rw [dropWhile_eq_self_of_all h]
  exact dropTrailing_eq_self (lastNot_of_all h)

theorem stripBothUnd_eq_self {l : PyStr} (hh : headNotUnd l = true)
    (hl : lastNotUnd l = true) : stripBoth isUnd l = l := by
  unfold stripBoth
  rw [dropWhile_eq_self_of_headNotUnd hh]
  exact dropTrailing_eq_self hl

theorem subRuns_eq_self_of_all (bad : Char → Bool) (s : PyStr)
    (h : ∀ c ∈ s, bad c = false) : subRuns bad s = s :=
  subRunsAux_eq_self h false

theorem subRunsUnd_eq_self {s : PyStr} (hnc : noConsecUnd s = true) :
    subRuns isUnd s = s :=
  subRunsAux_und_eq_self false hnc (by intro h; cases h)

/-! ### Identity lemmas for the path-handling stages -/

theorem foldl_basename_of_no_slash {l : PyStr} (h : ∀ c ∈ l, (c == '/') = false) :
    ∀ acc, l.foldl (fun acc c => if c == '/' then [] else acc ++ [c]) acc = acc ++ l := by
  induction l with
  | nil => intro acc; simp
  | cons x rest ih =>
    intro acc
    have hx : (x == '/') = false := h x (List.mem_cons_self _ _)
    simp only [List.foldl_cons, hx, Bool.false_eq_true, if_false]
    rw [ih (fun c hc => h c (List.mem_cons_of_mem _ hc))]
    simp

theorem basenamePy_eq_self {l : PyStr} (h : ∀ c ∈ l, (c == '/') = false) :
    basenamePy l = l := by
  unfold basenamePy
  rw [foldl_basename_of_no_slash h []]
  simp

theorem rfindIdx_eq_none {ch : Char} {l : PyStr} (h : ∀ c ∈ l, (c == ch) = false) :
    rfindIdx ch l = none := by
  induction l with
  | nil => rfl
  | cons x rest ih =>
    simp only [rfindIdx]
    rw [ih (fun c hc => h c (List.mem_cons_of_mem _ hc))]
    simp [h x (List.mem_cons_self _ _)]

theorem splitextRoot_eq_self {l : PyStr} (h : ∀ c ∈ l, (c == '.') = false) :
    splitextRoot l = l := by
  unfold splitextRoot splitextDot
  rw [rfindIdx_eq_none h]

theorem map_eq_self_of_forall {f : Char → Char} :
    ∀ {l : PyStr}, (∀ c ∈ l, f c = c) → l.map f = l := by
  intro l
  induction l with
  | nil => intro _; rfl
  | cons x rest ih =>
    intro h
    simp only [List.map_cons]
    rw [h x (List.mem_cons_self _ _), ih (fun c hc => h c (List.mem_cons_of_mem _ hc))]

/-! ### The sanitizer invariant -/

theorem finishTable_valid {base : PyStr}
    (hall : ∀ c ∈ base, isLowerAlnumUnd c = true)
    (hnc : noConsecUnd base = true) (hh : headNotUnd base = true)
    (hl : lastNotUnd base = true) : validIdent (finishTable base) = true := by
  unfold finishTable
  cases he : base.isEmpty with
  | true => simp only [he, if_true]; decide
  | false =>
    simp only [he, Bool.false_eq_true, if_false]
    cases base with
    | nil => cases he
    | cons c cs =>
      cases hd : headIsDigit (c :: cs) with
      | true =>
        simp only [hd, if_true]
        have hcd : isDigitChar c = true := hd
        have hcu : isUnd c = false := not_isUnd_of_isDigit hcd
        simp only [validIdent, Bool.and_eq_true, List.all_eq_true,
          Bool.not_eq_true']
        refine ⟨⟨⟨⟨⟨rfl, ?_⟩, rfl⟩, ?_⟩, rfl⟩, ?_⟩
        · intro x hx
          rcases List.mem_cons.mp hx with h1 | h1
          · subst h1; decide
          rcases List.mem_cons.mp h1 with h2 | h2
          · subst h2; decide
          · exact hall x h2
        · show ((!isUnd 't' || headNotUnd ('_' :: c :: cs)) &&
            noConsecUnd ('_' :: c :: cs)) = true
          rw [Bool.and_eq_true, Bool.or_eq_true]
          refine ⟨Or.inl rfl, ?_⟩
          show ((!isUnd '_' || headNotUnd (c :: cs)) && noConsecUnd (c :: cs)) = true
          rw [Bool.and_eq_true, Bool.or_eq_true]
          refine ⟨Or.inr ?_, hnc⟩
          show (!isUnd c) = true
          simp [hcu]
        · have hl' := hl
          simp only [lastNotUnd, lastNot] at hl'
          show lastNot isUnd ('t' :: '_' :: c :: cs) = true
          simp only [lastNot, List.getLast?_cons_cons]
          exact hl'
      | false =>
        simp only [hd, Bool.false_eq_true, if_false]
        simp only [validIdent, Bool.and_eq_true, List.all_eq_true, Bool.not_eq_true']
        exact ⟨⟨⟨⟨⟨rfl, hall⟩, hd⟩, hnc⟩, hh⟩, hl⟩

theorem finishTable_eq_self {base : PyStr} (hne : base.isEmpty = false)
    (hdig : headIsDigit base = false) : finishTable base = base := by
  unfold finishTable
  simp [hne, hdig]

/-- Every table name produced by the file-name sanitizer satisfies the
sanitized-identifier invariant of the spec. -/
theorem validIdent_sanitize_table (s : PyStr) :
    validIdent (sanitize_table_name s) = true := by
  unfold sanitize_table_name
  apply finishTable_valid
  · intro c hc
    rcases mem_subRunsAux (mem_stripBoth hc) with h | h
    · subst h; exact allowed_und
    · rcases mem_subRunsAux h.1 with h1 | h1
      · subst h1; exact allowed_und
      · simpa using h1.2
  · exact noConsecUnd_stripBothUnd (subRunsAux_und_props _ false).1
  · exact headNotUnd_stripBothUnd _
  · exact lastNotUnd_stripBothUnd _

/-- A string satisfying the invariant is a fixed point of the sanitizer. -/
theorem sanitize_table_eq_self {l : PyStr} (h : validIdent l = true) :
    sanitize_table_name l = l := by
  have hcomp := h
  simp only [validIdent, Bool.and_eq_true, Bool.not_eq_true', List.all_eq_true] at hcomp
  obtain ⟨⟨⟨⟨⟨hne, hall⟩, hdig⟩, hnc⟩, hh⟩, hl⟩ := hcomp
  unfold sanitize_table_name
  rw [basenamePy_eq_self (fun c hc => not_slash_of_allowed (hall c hc))]
  rw [splitextRoot_eq_self (fun c hc => not_dot_of_allowed (hall c hc))]
  rw [show pyLowerStr l = l from
    map_eq_self_of_forall (fun c hc => pyLower_of_allowed (hall c hc))]
  rw [stripBoth_eq_self_of_all (fun c hc => not_ws_of_allowed (hall c hc))]
  rw [subRuns_eq_self_of_all (fun c => !isLowerAlnumUnd c) l
    (fun c hc => by simp [hall c hc])]
  rw [subRunsUnd_eq_self hnc]
  rw [stripBothUnd_eq_self hh hl]
  exact finishTable_eq_self hne hdig

/-- Idempotence of the table-name sanitizer. -/
theorem sanitize_table_idem (s : PyStr) :
    sanitize_table_name (sanitize_table_name s) = sanitize_table_name s :=
  sanitize_table_eq_self (validIdent_sanitize_table s)

theorem allowed_colFallback : ∀ c ∈ colFallback, isLowerAlnumUnd c = true := by
  intro c hc
  have hcol : colFallback = ['c', 'o', 'l'] := rfl
  rw [hcol] at hc
  rcases List.mem_cons.mp hc with h | h
  · subst h; decide
  rcases List.mem_cons.mp h with h1 | h1
  · subst h1; decide
  rcases List.mem_cons.mp h1 with h2 | h2
  · subst h2; decide
  · cases h2

theorem finishCol_props {b : PyStr}
    (hallb : ∀ c ∈ b, isLowerAlnumUnd c = true)
    (hheadb : headNotUnd b = true) (hlastb : lastNotUnd b = true) :
    (finishCol b).isEmpty = false ∧
    (∀ c ∈ finishCol b, isLowerAlnumUnd c = true) ∧
    headNotUnd (finishCol b) = true ∧
    lastNotUnd (finishCol b) = true := by
  unfold finishCol
  cases he : b.isEmpty with
  | true =>
    simp only [he, if_true]
    exact ⟨rfl, allowed_colFallback, rfl, rfl⟩
  | false =>
    simp only [he, Bool.false_eq_true, if_false]
    exact ⟨trivial, hallb, hheadb, hlastb⟩

theorem lower_keeps_props {b0 : PyStr}
    (hall0 : ∀ c ∈ b0, isAlnumUnd c = true)
    (hh0 : headNotUnd b0 = true) (hl0 : lastNotUnd b0 = true) :
    (∀ c ∈ pyLowerStr b0, isLowerAlnumUnd c = true) ∧
    headNotUnd (pyLowerStr b0) = true ∧
    lastNotUnd (pyLowerStr b0) = true := by
  refine ⟨?_, ?_, ?_⟩
  · intro c hc
    obtain ⟨d, hd, hdc⟩ := List.mem_map.mp hc
    subst hdc
    exact isLowerAlnumUnd_pyLower (hall0 d hd)
  · cases b0 with
    | nil => rfl
    | cons x xs =>
      simp only [pyLowerStr, List.map_cons, headNotUnd, isUnd_pyLower]
      exact hh0
  · have hl' := hl0
    simp only [lastNotUnd, lastNot] at hl'
    simp only [lastNotUnd, lastNot, pyLowerStr, List.getLast?_map]
    cases hg : b0.getLast? with
    | none => rfl
    | some c =>
      rw [hg] at hl'
      simp only [Option.map_some', isUnd_pyLower]
      exact hl'

/-- The properties the column sanitizer does guarantee: non-empty output over
the lowercase allow-set, with no boundary underscores. -/
theorem sanitize_column_props (s : PyStr) :
    (sanitize_column s).isEmpty = false ∧
    (∀ c ∈ sanitize_column s, isLowerAlnumUnd c = true) ∧
    headNotUnd (sanitize_column s) = true ∧
    lastNotUnd (sanitize_column s) = true := by
  have hall0 : ∀ c ∈ stripBoth isUnd (subRuns (fun ch => !isAlnumUnd ch) s),
      isAlnumUnd c = true := by
    intro c hc
    rcases mem_subRunsAux (mem_stripBoth hc) with h | h
    · subst h; decide
    · simpa using h.2
  have hkeep := lower_keeps_props hall0 (headNotUnd_stripBothUnd _)
    (lastNotUnd_stripBothUnd _)
  exact finishCol_props hkeep.1 hkeep.2.1 hkeep.2.2

/-! ### Lexicographic comparison lemmas -/

theorem strLe_total : ∀ a b : PyStr, (strLe a b || strLe b a) = true := by
  intro a
  induction a with
  | nil => intro b; simp [strLe]
  | cons c cs ih =>
    intro b
    cases b with
    | nil => simp [strLe]
    | cons d ds =>
      by_cases h1 : c.toNat < d.toNat
      · have h2 : ¬ d.toNat < c.toNat := by omega
        simp [strLe, h1, h2]
      · by_cases h2 : d.toNat < c.toNat
        · simp [strLe, h1, h2]
        · simp only [strLe, h1, h2, if_false]
          exact ih ds

theorem strLe_cons_iff {x y : Char} {xs ys : PyStr} :
    strLe (x :: xs) (y :: ys) = true ↔
      x.toNat < y.toNat ∨ (x.toNat = y.toNat ∧ strLe xs ys = true) := by
  by_cases h1 : x.toNat < y.toNat
  · simp [strLe, h1]
  · by_cases h2 : y.toNat < x.toNat
    · simp only [strLe, h1, h2, if_true, if_false]
      constructor
      · intro h; cases h
      · intro h
        exfalso
        rcases h with h | ⟨h, _⟩
        · exact h.elim
        · omega
    · have he : x.toNat = y.toNat := by omega
      simp [strLe, h1, h2, he]

theorem strLe_trans : ∀ a b c : PyStr, strLe a b = true → strLe b c = true →
    strLe a c = true := by
  intro a
  induction a with
  | nil => intro b c _ _; rfl
  | cons x xs ih =>
    intro b c hab hbc
    cases b with
    | nil => simp [strLe] at hab
    | cons y ys =>
      cases c with
      | nil => simp [strLe] at hbc
      | cons z zs =>
        rw [strLe_cons_iff] at hab hbc ⊢
        rcases hab with hab | ⟨hab, hab'⟩
        · rcases hbc with hbc | ⟨hbc, _⟩
          · exact Or.inl (by omega)
          · exact Or.inl (by omega)
        · rcases hbc with hbc | ⟨hbc, hbc'⟩
          · exact Or.inl (by omega)
          · exact Or.inr ⟨by omega, ih ys zs hab' hbc'⟩

/-! ### File-selection lemmas -/

theorem validateExplicit_ok (fs : FileSystem) (dir : PyStr) :
    ∀ names : List PyStr, (∀ n ∈ names, fs.pathExists (resolveArg dir n) = true) →
      validateExplicit fs dir names = .ok (names.map (resolveArg dir)) := by
  intro names
  induction names with
  | nil => intro _; rfl
  | cons n rest ih =>
    intro h
    have hn := h n (List.mem_cons_self _ _)
    simp only [validateExplicit, hn, if_true,
      ih (fun m hm => h m (List.mem_cons_of_mem _ hm)), List.map_cons]

theorem validateExplicit_err (fs : FileSystem) (dir : PyStr) (bad : PyStr)
    (post : List PyStr) :
    ∀ pre : List PyStr, (∀ n ∈ pre, fs.pathExists (resolveArg dir n) = true) →
      fs.pathExists (resolveArg dir bad) = false →
      validateExplicit fs dir (pre ++ bad :: post) = .error .fileNotFound := by
  intro pre
  induction pre with
  | nil =>
    intro _ hbad
    simp only [List.nil_append, validateExplicit, hbad, Bool.false_eq_true, if_false]
  | cons n rest ih =>
    intro h hbad
    have hn := h n (List.mem_cons_self _ _)
    have hrec := ih (fun m hm => h m (List.mem_cons_of_mem _ hm)) hbad
    simp only [List.cons_append, validateExplicit, hn, if_true, List.append_eq]
    rw [hrec]

theorem get_csv_files_explicit (fs : FileSystem) (dir : PyStr) (names : List PyStr)
    (hdir : fs.isDir dir = true) (hne : names ≠ []) :
    get_csv_files fs dir (some names) = validateExplicit fs dir names := by
  have h2 : pyTruthy (some names) = true := by
    cases names with
    | nil => cases hne rfl
    | cons n rest => rfl
  unfold get_csv_files
  simp [hdir, h2]

theorem get_csv_files_scan (fs : FileSystem) (dir : PyStr)
    (hdir : fs.isDir dir = true) :
    get_csv_files fs dir none =
      (if (((fs.listdir dir).filter hasAllowedExt).map (joinPath dir)).isEmpty then
        .error .fileNotFound
      else
        .ok ((((fs.listdir dir).filter hasAllowedExt).map (joinPath dir)).mergeSort
          strLe)) := by
  unfold get_csv_files
  simp [hdir, pyTruthy]

/-! ### Load-loop lemmas -/

theorem processFiles_abort (env : LoadEnv) (schema sep encoding : PyStr)
    (chunksize : Nat) (f : PyStr) (e : LoadErr) (post : List PyStr) :
    ∀ pre : List PyStr,
      (∀ g ∈ pre,
        (load_csv_to_postgres env g schema sep encoding chunksize).isOk = true) →
      load_csv_to_postgres env f schema sep encoding chunksize = .error e →
      processFiles env schema sep encoding chunksize (pre ++ f :: post) =
        (pre ++ [f], some e) := by
  intro pre
  induction pre with
  | nil =>
    intro _ hf
    simp only [List.nil_append, processFiles, hf]
  | cons g rest ih =>
    intro h hf
    have hg := h g (List.mem_cons_self _ _)
    cases hload : load_csv_to_postgres env g schema sep encoding chunksize with
    | error e' =>
      rw [hload] at hg
      simp [Except.isOk, Except.toBool] at hg
    | ok v =>
      have hrec := ih (fun m hm => h m (List.mem_cons_of_mem _ hm)) hf
      simp only [List.cons_append, processFiles, hload, List.append_eq]
      rw [hrec]

/-- Decidable equality for Except results, used to evaluate the model on
concrete inputs. -/
instance exceptDecEq {ε α : Type} [DecidableEq ε] [DecidableEq α] :
    DecidableEq (Except ε α) := fun x y =>
  match x, y with
  | .ok a, .ok b =>
    if h : a = b then isTrue (by rw [h])
    else isFalse (by intro hc; cases hc; exact h rfl)
  | .error e, .error f =>
    if h : e = f then isTrue (by rw [h])
    else isFalse (by intro hc; cases hc; exact h rfl)
  | .ok _, .error _ => isFalse (by intro hc; cases hc)
  | .error _, .ok _ => isFalse (by intro hc; cases hc)

/-! ### Claim theorems -/

/-- C9: for every string, the table-name sanitizer's output matches
`^[a-z0-9_]+$` (non-empty, only lowercase ASCII letters, digits and
underscores), never starts with a digit, and the sanitizer is idempotent:
sanitizing twice equals sanitizing once. -/
theorem claim_C9_table_sanitizer (s : PyStr) :
    (sanitize_table_name s).isEmpty = false ∧
    (sanitize_table_name s).all isLowerAlnumUnd = true ∧
    headIsDigit (sanitize_table_name s) = false ∧
    sanitize_table_name (sanitize_table_name s) = sanitize_table_name s := by
  have h := validIdent_sanitize_table s
  simp only [validIdent, Bool.and_eq_true, Bool.not_eq_true'] at h
  obtain ⟨⟨⟨⟨⟨hne, hall⟩, hdig⟩, _⟩, _⟩, _⟩ := h
  exact ⟨hne, hall, hdig, sanitize_table_idem s⟩

/-- C2 fails as stated: the column-header sanitizer can produce an identifier
that starts with a digit and contains consecutive underscores.  The header
"9_-x" becomes "9__x", which violates both parts of the claimed invariant. -/
theorem claim_C2_counterexample :
    sanitize_column (pstr "9_-x") = pstr "9__x" ∧
    headIsDigit (sanitize_column (pstr "9_-x")) = true ∧
    noConsecUnd (sanitize_column (pstr "9_-x")) = false := by decide

/-- C2 amended: every table name from the file-name sanitizer satisfies the
full invariant (non-empty, only lowercase ASCII letters, digits and
underscores, no leading digit, no consecutive underscores, no boundary
underscores); every column name from the column-header sanitizer is
non-empty, contains only lowercase ASCII letters, digits and underscores and
has no boundary underscores, but may start with a digit and may contain
consecutive underscores. -/
theorem claim_C2_amended (s t : PyStr) :
    validIdent (sanitize_table_name s) = true ∧
    (sanitize_column t).isEmpty = false ∧
    (sanitize_column t).all isLowerAlnumUnd = true ∧
    headNotUnd (sanitize_column t) = true ∧
    lastNotUnd (sanitize_column t) = true := by
  obtain ⟨h1, h2, h3, h4⟩ := sanitize_column_props t
  refine ⟨validIdent_sanitize_table s, h1, ?_, h3, h4⟩
  rw [List.all_eq_true]
  exact h2

/-- C8: `resolve_value` returns the config value when it is non-null, else
the CLI value when it is non-null, else the default; presence is exactly
non-nullness. -/
theorem claim_C8_resolve (α : Type) (v w : α) (cli d : Option α) :
    resolve_value (some v) cli d = some v ∧
    resolve_value none (some w) d = some w ∧
    resolve_value (α := α) none none d = d :=
  ⟨rfl, rfl, rfl⟩

/-- C7: when the database URL resolves to an absent value (no config value
and no CLI value; it has no default), the run fails with the missing-URL
error, whatever the filesystem and database environment are — nothing else
is consulted first. -/
theorem claim_C7_missing_db_url (cfg : ConfigMap) (args : CliArgs)
    (hcfg : cfg.DB_URL = none) (hcli : args.db = none) :
    ∀ (fs : FileSystem) (env : LoadEnv),
      mainModel cfg args fs env = .error .missingDbUrl := by
  intro fs env
  unfold mainModel
  rw [hcfg, hcli]
  rfl

/-- Concrete all-absent configuration for the C7 witness. -/
def cfgC7 : ConfigMap := ⟨none, none, none, none, none, none, none⟩

/-- Concrete all-absent command line for the C7 witness. -/
def argsC7 : CliArgs := ⟨none, none, none, none, none, none, none⟩

/-- Concrete empty filesystem for the C7 witness. -/
def fsC7 : FileSystem := ⟨fun _ => false, fun _ => false, fun _ => []⟩

/-- Concrete environment for the C7 witness. -/
def envC7 : LoadEnv := ⟨fun _ _ _ => .raised, fun _ => .raised, fun _ _ _ _ _ => false⟩

theorem claim_C7_missing_db_url_witness :
    cfgC7.DB_URL = none ∧ argsC7.db = none ∧
    (∀ (fs : FileSystem) (env : LoadEnv),
      mainModel cfgC7 argsC7 fs env = .error .missingDbUrl) ∧
    mainModel cfgC7 argsC7 fsC7 envC7 = .error .missingDbUrl :=
  ⟨rfl, rfl, claim_C7_missing_db_url cfgC7 argsC7 rfl rfl,
   claim_C7_missing_db_url cfgC7 argsC7 rfl rfl fsC7 envC7⟩

/-- C4: with an absent explicit list, selection scans the existing directory
non-recursively, keeps exactly the entries whose lower-cased name ends in
.csv, .xlsx or .xls, fails with FileNotFound when nothing matches, and
otherwise returns the matching full paths sorted lexicographically by code
point. -/
theorem claim_C4_scan (fs : FileSystem) (dir : PyStr)
    (hdir : fs.isDir dir = true) :
    get_csv_files fs dir none =
      (if (((fs.listdir dir).filter hasAllowedExt).map (joinPath dir)).isEmpty then
        Except.error SelError.fileNotFound
      else
        Except.ok ((((fs.listdir dir).filter hasAllowedExt).map
          (joinPath dir)).mergeSort strLe)) ∧
    ((((fs.listdir dir).filter hasAllowedExt).map (joinPath dir)).mergeSort
        strLe).Pairwise (fun a b => strLe a b = true) ∧
    ((((fs.listdir dir).filter hasAllowedExt).map (joinPath dir)).mergeSort
        strLe).Perm (((fs.listdir dir).filter hasAllowedExt).map (joinPath dir)) := by
  refine ⟨get_csv_files_scan fs dir hdir, ?_, ?_⟩
  · exact List.sorted_mergeSort (fun a b c => strLe_trans a b c)
      (fun a b => strLe_total a b) _
  · exact List.mergeSort_perm _ strLe

/-- Concrete filesystem for the C4 witness: "/d" holds b.csv, a.csv and
c.txt. -/
def fsC4 : FileSystem :=
  ⟨fun p => p == pstr "/d", fun _ => false,
   fun p => if p == pstr "/d" then [pstr "b.csv", pstr "a.csv", pstr "c.txt"] else []⟩

unseal List.mergeSort List.merge in
theorem claim_C4_scan_witness :
    fsC4.isDir (pstr "/d") = true ∧
    (get_csv_files fsC4 (pstr "/d") none =
      (if (((fsC4.listdir (pstr "/d")).filter hasAllowedExt).map
          (joinPath (pstr "/d"))).isEmpty then
        Except.error SelError.fileNotFound
      else
        Except.ok ((((fsC4.listdir (pstr "/d")).filter hasAllowedExt).map
          (joinPath (pstr "/d"))).mergeSort strLe)) ∧
      ((((fsC4.listdir (pstr "/d")).filter hasAllowedExt).map
          (joinPath (pstr "/d"))).mergeSort strLe).Pairwise
        (fun a b => strLe a b = true) ∧
      ((((fsC4.listdir (pstr "/d")).filter hasAllowedExt).map
          (joinPath (pstr "/d"))).mergeSort strLe).Perm
        (((fsC4.listdir (pstr "/d")).filter hasAllowedExt).map
          (joinPath (pstr "/d")))) ∧
    get_csv_files fsC4 (pstr "/d") none =
      Except.ok [pstr "/d/a.csv", pstr "/d/b.csv"] :=
  ⟨by decide, claim_C4_scan fsC4 (pstr "/d") (by decide), by decide⟩

/-- C5: non-empty explicit entries resolve as absolute paths or relative to
the directory; selection fails with FileNotFound at the first missing entry,
whatever comes after it in the list, and when every entry exists it returns
the resolved paths in the given order, duplicates included. -/
theorem claim_C5_explicit (fs : FileSystem) (dir : PyStr)
    (names pre post : List PyStr) (bad : PyStr)
    (hdir : fs.isDir dir = true) (hne : names ≠ [])
    (hall : ∀ n ∈ names, fs.pathExists (resolveArg dir n) = true)
    (hpre : ∀ n ∈ pre, fs.pathExists (resolveArg dir n) = true)
    (hbad : fs.pathExists (resolveArg dir bad) = false) :
    get_csv_files fs dir (some names) = .ok (names.map (resolveArg dir)) ∧
    get_csv_files fs dir (some (pre ++ bad :: post)) = .error .fileNotFound := by
  constructor
  · rw [get_csv_files_explicit fs dir names hdir hne]
    exact validateExplicit_ok fs dir names hall
  · rw [get_csv_files_explicit fs dir _ hdir (by cases pre <;> simp)]
    exact validateExplicit_err fs dir bad post pre hpre hbad

/-- Concrete filesystem for the C5 witness: "/d/a.csv" and the absolute
"/e/b.csv" exist; "/d/missing.csv" does not. -/
def fsC5 : FileSystem :=
  ⟨fun p => p == pstr "/d",
   fun p => p == pstr "/d/a.csv" || p == pstr "/e/b.csv",
   fun _ => []⟩

theorem claim_C5_explicit_witness :
    fsC5.isDir (pstr "/d") = true ∧
    ([pstr "a.csv", pstr "/e/b.csv", pstr "a.csv"] : List PyStr) ≠ [] ∧
    (∀ n ∈ ([pstr "a.csv", pstr "/e/b.csv", pstr "a.csv"] : List PyStr),
      fsC5.pathExists (resolveArg (pstr "/d") n) = true) ∧
    (∀ n ∈ ([pstr "a.csv"] : List PyStr),
      fsC5.pathExists (resolveArg (pstr "/d") n) = true) ∧
    fsC5.pathExists (resolveArg (pstr "/d") (pstr "missing.csv")) = false ∧
    (get_csv_files fsC5 (pstr "/d")
        (some [pstr "a.csv", pstr "/e/b.csv", pstr "a.csv"]) =
      .ok ([pstr "a.csv", pstr "/e/b.csv", pstr "a.csv"].map
        (resolveArg (pstr "/d"))) ∧
    get_csv_files fsC5 (pstr "/d")
        (some ([pstr "a.csv"] ++ pstr "missing.csv" :: [pstr "a.csv"])) =
      .error .fileNotFound) :=
  ⟨by decide, by decide, by decide, by decide, by decide,
   claim_C5_explicit fsC5 (pstr "/d")
     [pstr "a.csv", pstr "/e/b.csv", pstr "a.csv"]
     [pstr "a.csv"] [pstr "a.csv"] (pstr "missing.csv")
     (by decide) (by decide) (by decide) (by decide) (by decide)⟩

/-- C3: the load loop is a hard stop: when every file before f loads
successfully and f's load fails with error e, the run aborts with e having
attempted exactly the predecessors and f — the files after f are never
attempted, whatever they are. -/
theorem claim_C3_hard_stop (env : LoadEnv) (schema sep encoding : PyStr)
    (chunksize : Nat) (pre post : List PyStr) (f : PyStr) (e : LoadErr)
    (hpre : ∀ g ∈ pre,
      (load_csv_to_postgres env g schema sep encoding chunksize).isOk = true)
    (hf : load_csv_to_postgres env f schema sep encoding chunksize = .error e) :
    processFiles env schema sep encoding chunksize (pre ++ f :: post) =
      (pre ++ [f], some e) :=
  processFiles_abort env schema sep encoding chunksize f e post pre hpre hf

/-- Concrete environment for the C3 witness: the database accepts every
table except one named "bad" (e.g. because that table already exists). -/
def envC3 : LoadEnv :=
  ⟨fun _ _ _ => .ok ⟨[pstr "Nombre"], 2⟩, fun _ => .ok ⟨[], 0⟩,
   fun t _ _ _ _ => !(t == pstr "bad")⟩

theorem claim_C3_hard_stop_witness :
    (∀ g ∈ ([pstr "a.csv"] : List PyStr),
      (load_csv_to_postgres envC3 g (pstr "public") (pstr ",") (pstr "utf-8")
        2000).isOk = true) ∧
    load_csv_to_postgres envC3 (pstr "bad.csv") (pstr "public") (pstr ",")
      (pstr "utf-8") 2000 =
      .error (.dbError (pstr "public") (pstr "bad")) ∧
    processFiles envC3 (pstr "public") (pstr ",") (pstr "utf-8") 2000
        ([pstr "a.csv"] ++ pstr "bad.csv" :: [pstr "c.csv"]) =
      ([pstr "a.csv"] ++ [pstr "bad.csv"],
        some (.dbError (pstr "public") (pstr "bad"))) :=
  ⟨by decide, by decide,
   claim_C3_hard_stop envC3 (pstr "public") (pstr ",") (pstr "utf-8") 2000
     [pstr "a.csv"] [pstr "c.csv"] (pstr "bad.csv")
     (.dbError (pstr "public") (pstr "bad")) (by decide) (by decide)⟩

/-- C6: explicit-list selection checks only existence, so an existing file
with an unsupported extension is selected; its load then fails with the
unsupported-format error at read time, in every environment — before any
column sanitization or database call could happen. -/
theorem claim_C6_format_checked_at_read (fs : FileSystem)
    (dir nm schema sep encoding : PyStr) (chunksize : Nat)
    (hdir : fs.isDir dir = true)
    (hex : fs.pathExists (resolveArg dir nm) = true)
    (hunsup : extSupported (pyLowerStr (splitextExt (resolveArg dir nm))) = false) :
    get_csv_files fs dir (some [nm]) = .ok [resolveArg dir nm] ∧
    ∀ env : LoadEnv,
      load_csv_to_postgres env (resolveArg dir nm) schema sep encoding chunksize =
        .error (.unsupportedFormat (pyLowerStr (splitextExt (resolveArg dir nm)))) := by
  constructor
  · rw [get_csv_files_explicit fs dir [nm] hdir (by simp)]
    have h := validateExplicit_ok fs dir [nm] ?_
    · simpa using h
    · intro n hn
      rw [List.mem_singleton] at hn
      subst hn
      exact hex
  · intro env
    unfold load_csv_to_postgres
    simp only [extSupported, Bool.or_eq_false_iff] at hunsup
    obtain ⟨⟨h1, h2⟩, h3⟩ := hunsup
    simp only [h1, h2, h3, Bool.or_self, Bool.false_eq_true, if_false]

/-- Concrete filesystem for the C6 witness: "/d/notes.txt" exists. -/
def fsC6 : FileSystem :=
  ⟨fun p => p == pstr "/d", fun p => p == pstr "/d/notes.txt", fun _ => []⟩

theorem claim_C6_format_checked_at_read_witness :
    fsC6.isDir (pstr "/d") = true ∧
    fsC6.pathExists (resolveArg (pstr "/d") (pstr "notes.txt")) = true ∧
    extSupported (pyLowerStr (splitextExt
      (resolveArg (pstr "/d") (pstr "notes.txt")))) = false ∧
    (get_csv_files fsC6 (pstr "/d") (some [pstr "notes.txt"]) =
      .ok [resolveArg (pstr "/d") (pstr "notes.txt")] ∧
    ∀ env : LoadEnv,
      load_csv_to_postgres env (resolveArg (pstr "/d") (pstr "notes.txt"))
          (pstr "public") (pstr ",") (pstr "utf-8") 2000 =
        .error (.unsupportedFormat (pyLowerStr (splitextExt
          (resolveArg (pstr "/d") (pstr "notes.txt")))))) :=
  ⟨by decide, by decide, by decide,
   claim_C6_format_checked_at_read fsC6 (pstr "/d") (pstr "notes.txt")
     (pstr "public") (pstr ",") (pstr "utf-8") 2000
     (by decide) (by decide) (by decide)⟩

/-- C10: selection never checks that a path is a regular file: an explicit
entry whose resolved path is a directory (and not a regular file) is
accepted and returned, and the directory scan returns an entry that is
itself a directory whenever its name ends in a supported extension. -/
theorem claim_C10_no_regular_file_check (fs : FileSystem)
    (dir nm entry : PyStr)
    (hdir : fs.isDir dir = true)
    (hisdir : fs.isDir (resolveArg dir nm) = true)
    (hnotfile : fs.isFile (resolveArg dir nm) = false)
    (hmem : entry ∈ fs.listdir dir)
    (hext : hasAllowedExt entry = true)
    (_hsubdir : fs.isDir (joinPath dir entry) = true) :
    get_csv_files fs dir (some [nm]) = .ok [resolveArg dir nm] ∧
    ∃ l, get_csv_files fs dir none = .ok l ∧ joinPath dir entry ∈ l := by
  constructor
  · rw [get_csv_files_explicit fs dir [nm] hdir (by simp)]
    have h := validateExplicit_ok fs dir [nm] ?_
    · simpa using h
    · intro n hn
      rw [List.mem_singleton] at hn
      subst hn
      unfold FileSystem.pathExists
      rw [hisdir]
      rfl
  · have hmem2 : joinPath dir entry ∈
        ((fs.listdir dir).filter hasAllowedExt).map (joinPath dir) :=
      List.mem_map_of_mem _ (List.mem_filter.mpr ⟨hmem, hext⟩)
    have hnonempty :
        ((((fs.listdir dir).filter hasAllowedExt).map (joinPath dir)).isEmpty) = false := by
      cases hnil : ((fs.listdir dir).filter hasAllowedExt).map (joinPath dir) with
      | nil => rw [hnil] at hmem2; cases hmem2
      | cons a as => rfl
    rw [get_csv_files_scan fs dir hdir]
    simp only [hnonempty, Bool.false_eq_true, if_false]
    exact ⟨_, rfl, List.mem_mergeSort.mpr hmem2⟩

/-- Concrete filesystem for the C10 witness: "/d/sub.csv" is a directory
inside "/d". -/
def fsC10 : FileSystem :=
  ⟨fun p => p == pstr "/d" || p == pstr "/d/sub.csv",
   fun _ => false,
   fun p => if p == pstr "/d" then [pstr "sub.csv"] else []⟩

theorem claim_C10_no_regular_file_check_witness :
    fsC10.isDir (pstr "/d") = true ∧
    fsC10.isDir (resolveArg (pstr "/d") (pstr "sub.csv")) = true ∧
    fsC10.isFile (resolveArg (pstr "/d") (pstr "sub.csv")) = false ∧
    pstr "sub.csv" ∈ fsC10.listdir (pstr "/d") ∧
    hasAllowedExt (pstr "sub.csv") = true ∧
    fsC10.isDir (joinPath (pstr "/d") (pstr "sub.csv")) = true ∧
    (get_csv_files fsC10 (pstr "/d") (some [pstr "sub.csv"]) =
      .ok [resolveArg (pstr "/d") (pstr "sub.csv")] ∧
    ∃ l, get_csv_files fsC10 (pstr "/d") none = .ok l ∧
      joinPath (pstr "/d") (pstr "sub.csv") ∈ l) :=
  ⟨by decide, by decide, by decide, by decide, by decide, by decide,
   claim_C10_no_regular_file_check fsC10 (pstr "/d") (pstr "sub.csv")
     (pstr "sub.csv") (by decide) (by decide) (by decide) (by decide)
     (by decide) (by decide)⟩

/-- Concrete filesystem for C1: the existing directory "/d" holds no
matching file at all. -/
def fsC1a : FileSystem := ⟨fun p => p == pstr "/d", fun _ => false, fun _ => []⟩

/-- Concrete filesystem for C1: the existing directory "/d" holds a.csv. -/
def fsC1b : FileSystem :=
  ⟨fun p => p == pstr "/d", fun p => p == pstr "/d/a.csv",
   fun p => if p == pstr "/d" then [pstr "a.csv"] else []⟩

unseal List.mergeSort List.merge in
/-- C1 fails on the code, and the code contradicts its own documentation
(src/config.py documents the empty CSV_NAMES list as "no procesa ninguno"):
`if csv_names:` treats the empty list like the absent one, so an explicitly
empty list falls through to the directory scan — it raises FileNotFound on a
directory without matches and selects every matching file otherwise, instead
of selecting nothing. -/
theorem claim_C1_empty_list_falls_through :
    pyTruthy (some ([] : List PyStr)) = pyTruthy none ∧
    get_csv_files fsC1a (pstr "/d") (some []) = .error .fileNotFound ∧
    get_csv_files fsC1b (pstr "/d") (some []) = .ok [pstr "/d/a.csv"] ∧
    get_csv_files fsC1b (pstr "/d") (some []) ≠ .ok [] := by decide

/-- The concrete sanitizer vectors of spec.md section 8, checked against the
model by evaluation. -/
theorem sanitizer_spec_vectors :
    sanitize_table_name (pstr "  Ventas__2024--Ano  .csv") = pstr "ventas_2024_ano" ∧
    sanitize_table_name (pstr "123abc") = pstr "t_123abc" ∧
    sanitize_table_name (pstr "") = pstr "table" ∧
    sanitize_table_name (pstr "!!!.csv") = pstr "table" ∧
    sanitize_table_name (pstr "Clientes 2024.csv") = pstr "clientes_2024" ∧
    sanitize_column (pstr "Fecha de Venta") = pstr "fecha_de_venta" ∧
    sanitize_column (pstr "Nombre") = pstr "nombre" ∧
    sanitize_column (pstr "Código Postal") = pstr "c_digo_postal" ∧
    sanitize_column (pstr "") = pstr "col" := by decide

end CsvPg
